import Mathlib

/-!
Verification development for a graph-fact compiler pipeline.

The repository consists of four Python scripts:
  - graphml_to_fact.py    : consolidates GraphML documents into tab-separated
                            fact tables (nodes / edges / sensitive);
  - parse_kegg_graphml.py : consolidates GraphML documents into a single
                            GraphML document, classifying nodes by heuristics;
  - tsv_to_graphml.py     : parses path-summary rows and reconstructs a graph;
  - watt_lib.py           : deterministically generates a small-world graph's
                            fact tables.

Python strings are modelled as lists of characters (all relevant data is
ASCII, for which Python's str.lower agrees with Char.toLower).  Python sets
are modelled as duplicate-free lists in insertion order; every property proved
or refuted about them below is insensitive to iteration order unless the
order is itself the subject.  Fact files are modelled as the list of rows
passed to the csv writer.
-/

namespace StrUtil

/-- A Python string as a list of characters. -/
def sl (s : String) : List Char := s.data

/-- Python str.lower, on the ASCII data handled by this program. -/
def lower (s : List Char) : List Char := s.map Char.toLower

/-- Does the second list start with the first (Python str.startswith)? -/
def startsWithL : List Char → List Char → Bool
  | [], _ => true
  | _ :: _, [] => false
  | p :: ps, c :: cs => p = c && startsWithL ps cs

/-- Does the second list end with the first (Python str.endswith)? -/
def endsWithL (p s : List Char) : Bool := startsWithL p.reverse s.reverse

/-- Python substring containment: pat in s. -/
def containsSub (pat : List Char) : List Char → Bool
  | [] => startsWithL pat []
  | c :: cs => startsWithL pat (c :: cs) || containsSub pat cs

/-- Python set.add, on the duplicate-free-list model of a set. -/
def setAdd {α : Type} [DecidableEq α] (s : List α) (x : α) : List α :=
  if x ∈ s then s else s ++ [x]

end StrUtil

open StrUtil

namespace GraphmlToFact

/-!
Model of graphml_to_fact.py.

A raw node carries its id attribute and the list of text values of its
data entries with key "type", in document order; the script keeps the
last one, lower-cased, defaulting to "compound".  A raw edge carries the
source and target attributes and the text values of its data entries with
key "label"; the script keeps the last one, defaulting to "".
-/

structure RawNode where
  id : List Char
  typeData : List (List Char)
deriving DecidableEq

structure RawEdge where
  source : List Char
  target : List Char
  labelData : List (List Char)
deriving DecidableEq

structure Doc where
  rawNodes : List RawNode
  rawEdges : List RawEdge
deriving DecidableEq

/-- The node_type value after the data loop: last "type" entry lower-cased,
default "compound". -/
def nodeTypeOf (rn : RawNode) : List Char :=
  rn.typeData.foldl (fun _ v => lower v) (sl "compound")

/-- TYPE_MAPPING.get(node_type, 'normal'). -/
def TYPE_MAPPING_get (t : List Char) : List Char :=
  if t = sl "compound" then sl "normal"
  else if t = sl "pathway" then sl "sink"
  else if t = sl "enzyme" then sl "sanitizer"
  else if t = sl "reaction" then sl "normal"
  else if t = sl "group" then sl "normal"
  else sl "normal"

/-- The mapped type stored with a node in the accumulated set. -/
def mappedType (rn : RawNode) : List Char := TYPE_MAPPING_get (nodeTypeOf rn)

/-- The label value after the data loop: last "label" entry, default "". -/
def labelOf (re2 : RawEdge) : List Char :=
  re2.labelData.foldl (fun _ v => v) (sl "")

/-- The accumulated `nodes` set: set of (id, mapped type) pairs over all
documents, modelled as a duplicate-free list. -/
def accumNodes (docs : List Doc) : List (List Char × List Char) :=
  docs.foldl
    (fun acc d => d.rawNodes.foldl (fun a rn => setAdd a (rn.id, mappedType rn)) acc)
    []

/-- The accumulated `edges` list: (source, target, label) appended per edge. -/
def accumEdges (docs : List Doc) : List (List Char × List Char × List Char) :=
  docs.foldl
    (fun acc d => d.rawEdges.foldl (fun a re2 => a ++ [(re2.source, re2.target, labelOf re2)]) acc)
    []

/-- The promotion condition on one accumulated (id, type) pair. -/
def isDrugLike (p : List Char × List Char) : Bool :=
  containsSub (sl "drug") (lower p.1) || containsSub (sl "compound") (lower p.2)

/-- The `sources` set built in the final pass over the accumulated node set. -/
def sourcesOf (ns : List (List Char × List Char)) : List (List Char) :=
  ns.foldl (fun acc p => if isDrugLike p then setAdd acc p.1 else acc) []

/-- Rows of the nodes fact table: one row per accumulated (id, type) pair,
with the type overridden to "source" when the id is in `sources`. -/
def nodesRows (docs : List Doc) : List (List Char × List Char) :=
  (accumNodes docs).map
    (fun p => (p.1, if p.1 ∈ sourcesOf (accumNodes docs) then sl "source" else p.2))

/-- Rows of the edges fact table: the accumulated edge list, verbatim. -/
def edgesRows (docs : List Doc) : List (List Char × List Char × List Char) :=
  accumEdges docs

/-- Rows of the sensitive fact table: ('drug_' + id, id) per source id. -/
def sensRows (docs : List Doc) : List (List Char × List Char) :=
  (sourcesOf (accumNodes docs)).map (fun id => (sl "drug_" ++ id, id))

end GraphmlToFact

namespace Consolidator

/-!
Model of parse_kegg_graphml.py.

A raw node carries its id attribute and its (key, text) data entries in
document order; the script scans them keeping the last "d0" entry as the
formula and the last "d1" entry as the description (text defaulting to "").
A raw edge carries source, target, and its (key, text) data entries; the
script keeps the first "label" entry (it breaks out of the loop).
-/

structure RawNodeC where
  id : List Char
  dataEntries : List (List Char × List Char)
deriving DecidableEq

structure RawEdgeC where
  source : List Char
  target : List Char
  dataEntries : List (List Char × List Char)
deriving DecidableEq

structure DocC where
  rawNodes : List RawNodeC
  rawEdges : List RawEdgeC
deriving DecidableEq

/-- The description after the data loop: last "d1" entry, default "". -/
def descriptionOf (rn : RawNodeC) : List Char :=
  rn.dataEntries.foldl (fun d kv => if kv.1 = sl "d1" then kv.2 else d) []

/-- The edge label: first "label" entry (the loop breaks), default "". -/
def edgeLabelOf (re2 : RawEdgeC) : List Char :=
  match re2.dataEntries.find? (fun kv => kv.1 = sl "label") with
  | some kv => kv.2
  | none => []

def enzyme_indicators : List (List Char) :=
  [sl "enzyme", sl "ec", sl "ase", sl "cysteine", sl "coenzyme",
   sl "[enzyme]", sl "f420", sl "f-420", sl "coenzyme_f420"]

/-- classify_node(node_id, description): ordered heuristic rules,
first match wins. -/
def classify_node (node_id description : List Char) : List Char :=
  let idl := lower node_id
  let dl := lower description
  if containsSub (sl "pathway") idl || containsSub (sl "map") idl
      || endsWithL (sl "map") node_id || containsSub (sl "pathway") dl then
    sl "sink"
  else if enzyme_indicators.any (fun t => containsSub t idl)
      || enzyme_indicators.any (fun t => containsSub t dl) then
    sl "sanitizer"
  else if containsSub (sl "drug") idl || containsSub (sl "drug") dl
      || startsWithL (sl "D") node_id then
    sl "source"
  else
    sl "normal"

/-- The consolidator's mutable state: the processed_nodes set, the emitted
node elements (id, class), the processed_edges set, and the emitted edge
elements (source, target, label). -/
structure CState where
  processedNodes : List (List Char)
  nodeRows : List (List Char × List Char)
  processedEdges : List (List Char × List Char)
  edgeRows : List (List Char × List Char × List Char)
deriving DecidableEq

/-- Processing one node element inside a document. -/
def stepNodeC (st : CState) (rn : RawNodeC) : CState :=
  if rn.id.isEmpty ∨ rn.id ∈ st.processedNodes then st
  else
    { st with
      processedNodes := st.processedNodes ++ [rn.id]
      nodeRows := st.nodeRows ++ [(rn.id, classify_node rn.id (descriptionOf rn))] }

/-- Processing one edge element inside a document: skipped when an endpoint
attribute is missing or the (source, target) pair was already processed;
kept only when both endpoints are already processed nodes. -/
def stepEdgeC (st : CState) (re2 : RawEdgeC) : CState :=
  if re2.source.isEmpty ∨ re2.target.isEmpty
      ∨ (re2.source, re2.target) ∈ st.processedEdges then st
  else if re2.source ∈ st.processedNodes ∧ re2.target ∈ st.processedNodes then
    { st with
      processedEdges := st.processedEdges ++ [(re2.source, re2.target)]
      edgeRows := st.edgeRows ++ [(re2.source, re2.target, edgeLabelOf re2)] }
  else st

/-- Processing one document: all its nodes, then all its edges. -/
def stepDocC (st : CState) (d : DocC) : CState :=
  (d.rawEdges.foldl stepEdgeC (d.rawNodes.foldl stepNodeC st))

/-- Running the consolidator over a batch of documents (in sorted filename
order, supplied here as the list order). -/
def runConsolidator (docs : List DocC) : CState :=
  docs.foldl stepDocC ⟨[], [], [], []⟩

end Consolidator

namespace TsvToGraphml

/-!
Model of tsv_to_graphml.py.

The regular expressions used by parse_summary all have the shape
  LITERAL + "[" + LEADCHAR + digits+ + "]"   (captured: LEADCHAR + digits)
or, for the hop pattern, LEADCHAR + digits+.  For these patterns a match can
never begin strictly inside another match (the literal portions contain their
own first character only at position 0, and digits cannot begin a match), so
re.findall's continue-after-the-match scan visits exactly the same match set
as the per-character scan used below, and re.search's leftmost match is the
first per-character match.
-/

/-- Attempt to match LITERAL + lead + digits+ + "]" at the head of s,
returning the captured group lead :: digits (the digits run is maximal,
as with a greedy \ d + followed by a literal bracket). -/
def tryTok (pre : List Char) (lead : Char) (s : List Char) : Option (List Char) :=
  if startsWithL pre s then
    match s.drop pre.length with
    | [] => none
    | l :: rest =>
      if l = lead then
        let ds := rest.takeWhile Char.isDigit
        if ds.isEmpty then none
        else
          match rest.drop ds.length with
          | ']' :: _ => some (lead :: ds)
          | _ => none
      else none
  else none

/-- re.search for one bracketed token pattern: leftmost match's group. -/
def searchTok (pre : List Char) (lead : Char) : List Char → Option (List Char)
  | [] => none
  | c :: cs =>
    match tryTok pre lead (c :: cs) with
    | some g => some g
    | none => searchTok pre lead cs

/-- re.findall for one bracketed token pattern: all groups, in textual order. -/
def findTok (pre : List Char) (lead : Char) : List Char → List (List Char)
  | [] => []
  | c :: cs =>
    match tryTok pre lead (c :: cs) with
    | some g => g :: findTok pre lead cs
    | none => findTok pre lead cs

/-- re.findall of the hop pattern (capital E followed by digits),
in textual order. -/
def findE : List Char → List (List Char)
  | [] => []
  | c :: cs =>
    if c = 'E' then
      let ds := cs.takeWhile Char.isDigit
      if ds.isEmpty then findE cs else ('E' :: ds) :: findE cs
    else findE cs

structure ParseResult where
  source : Option (List Char)
  sink : Option (List Char)
  sanitizers : List (List Char)
  sensitive : List (List Char)
  reaches : List (List Char)
deriving DecidableEq

/-- parse_summary(summary_str). -/
def parse_summary (s : List Char) : ParseResult :=
  { source := searchTok (sl "Source[") 'N' s
  , sink := searchTok (sl "Sink[") 'N' s
  , sanitizers := findTok (sl "Sanitizer[") 'N' s
  , sensitive := findTok (sl "SensFromType[") 'S' s
  , reaches := findE s }

/-- One input row, modelled by the two columns the script reads:
row[0] (the summary string) and row[-1] (the path type). -/
structure Row where
  summary : List Char
  ptype : List Char
deriving DecidableEq

/-- The accumulator of create_graphml: the node set and the edge list. -/
structure GState where
  nodes : List (List Char)
  edges : List (List Char × List Char × List Char)
deriving DecidableEq

/-- The Reach-chain loop: prev starts at the source, one edge per hop, and a
closing edge from the final prev to the sink. -/
def chainEdges (prev : List Char) (reaches : List (List Char))
    (sink ptype : List Char) : List (List Char × List Char × List Char) :=
  match reaches with
  | [] => [(prev, sink, ptype)]
  | r :: rs => (prev, r, ptype) :: chainEdges r rs sink ptype

/-- Processing one row of the path-summary file. -/
def processRow (st : GState) (row : Row) : GState :=
  let pr := parse_summary row.summary
  match pr.source, pr.sink with
  | some src, some snk =>
    if src.isEmpty || snk.isEmpty then st
    else
      let ns1 := setAdd st.nodes src
      let ns2 := setAdd ns1 snk
      let ns3 := pr.sanitizers.foldl setAdd ns2
      let ns4 := pr.sensitive.foldl setAdd ns3
      let ns5 := pr.reaches.foldl setAdd ns4
      let es1 := st.edges ++ chainEdges src pr.reaches snk row.ptype
      let es2 := pr.sanitizers.foldl
        (fun a z => a ++ [(src, z, sl "sanitizer"), (z, snk, sl "sanitizer")]) es1
      ⟨ns5, es2⟩
  | _, _ => st

/-- Running create_graphml's row loop over the whole file. -/
def runRows (rows : List Row) : GState :=
  rows.foldl processRow ⟨[], []⟩

end TsvToGraphml

namespace WattLib

/-!
Model of watt_lib.py.

The networkx call is external to this repository; the generator is modelled
as a function of the node list and edge list the library hands back, in
whatever incidental order the library enumerates them.  str(v) is modelled by
Nat.repr and an f-string prefix by list append.
-/

/-- Lexicographic order on (u, v) pairs, as Python's sorted uses on tuples. -/
def pairLe (a b : Nat × Nat) : Prop :=
  a.1 < b.1 ∨ (a.1 = b.1 ∧ a.2 ≤ b.2)

instance : DecidableRel pairLe := fun a b => by
  unfold pairLe
  infer_instance

instance : IsTotal (Nat × Nat) pairLe := by
  constructor
  intro a b
  unfold pairLe
  omega

instance : IsTrans (Nat × Nat) pairLe := by
  constructor
  intro a b c hab hbc
  unfold pairLe at hab hbc ⊢
  omega

instance : IsAntisymm (Nat × Nat) pairLe := by
  constructor
  intro a b hab hba
  unfold pairLe at hab hba
  have h1 : a.1 = b.1 := by omega
  have h2 : a.2 = b.2 := by omega
  exact Prod.ext h1 h2

/-- str(v). -/
def natStr (v : Nat) : List Char := (Nat.repr v).data

/-- The node_type dict entry for node v (source = 0, sink = n - 1). -/
def nodeRole (n v : Nat) : List Char :=
  if v = 0 then sl "source"
  else if v = n - 1 then sl "sink"
  else if v % 5 = 0 then sl "sanitizer"
  else sl "normal"

/-- Rows of nodes.facts: enumerate(sorted(G.nodes())). -/
def nodesFacts (n : Nat) (nodesL : List Nat) : List (List (List Char)) :=
  (List.insertionSort (fun a b => a ≤ b) nodesL).enum.map
    (fun p => [sl "N" ++ natStr p.1, natStr p.2, nodeRole n p.2])

/-- The edge loop with its running eidx counter: each sorted undirected
edge yields two directed rows. -/
def edgeRowsFrom (eidx : Nat) : List (Nat × Nat) → List (List (List Char))
  | [] => []
  | p :: rest =>
    [sl "E" ++ natStr eidx, natStr p.1, natStr p.2, sl "interacts"] ::
    [sl "E" ++ natStr (eidx + 1), natStr p.2, natStr p.1, sl "interacts"] ::
    edgeRowsFrom (eidx + 2) rest

/-- Rows of edges.facts: the loop above over sorted(G.edges()). -/
def edgesFacts (edgesL : List (Nat × Nat)) : List (List (List Char)) :=
  edgeRowsFrom 0 (List.insertionSort pairLe edgesL)

/-- The sensitive_nodes comprehension: every third node excluding the
source and sink endpoints. -/
def sensitiveNodes (n : Nat) (nodesL : List Nat) : List Nat :=
  nodesL.filter (fun v => decide (v % 3 = 0 ∧ ¬(v = 0 ∨ v = n - 1)))

/-- Rows of sensitive.facts: enumerate(sorted(sensitive_nodes)). -/
def sensitiveFacts (n : Nat) (nodesL : List Nat) : List (List (List Char)) :=
  (List.insertionSort (fun a b => a ≤ b) (sensitiveNodes n nodesL)).enum.map
    (fun p => [sl "S" ++ natStr p.1, natStr p.2, sl "pii_compound"])

end WattLib

namespace Consolidator

/-- The dangling-edge invariant: every emitted edge's endpoints are
processed node ids. -/
def CInv (st : CState) : Prop :=
  ∀ e ∈ st.edgeRows, e.1 ∈ st.processedNodes ∧ e.2.1 ∈ st.processedNodes

end Consolidator

namespace Examples

/-- Two documents declaring the same node id "X" with different declared
types (pathway, then enzyme). -/
def c1docs : List GraphmlToFact.Doc :=
  [⟨[⟨sl "X", [sl "pathway"]⟩], []⟩, ⟨[⟨sl "X", [sl "enzyme"]⟩], []⟩]

/-- One document declaring node "A" and an edge from "A" to the undeclared
id "B". -/
def c2docs : List GraphmlToFact.Doc :=
  [⟨[⟨sl "A", []⟩], [⟨sl "A", sl "B", []⟩]⟩]

/-- The same batch for the consolidated-document path, with both endpoints
declared. -/
def c2consDocs : List Consolidator.DocC :=
  [⟨[⟨sl "A", []⟩, ⟨sl "B", []⟩], [⟨sl "A", sl "B", []⟩]⟩]

/-- One document with a drug-named node and a pathway-typed node. -/
def c3docs : List GraphmlToFact.Doc :=
  [⟨[⟨sl "drugA", []⟩, ⟨sl "P", [sl "pathway"]⟩], []⟩]

/-- One document with a single drug-named node. -/
def c10docs : List GraphmlToFact.Doc :=
  [⟨[⟨sl "drugA", []⟩], []⟩]

/-- The spec's worked path-summary example row. -/
def exampleRow : TsvToGraphml.Row :=
  ⟨sl "Source[N1]->E1->Sanitizer[N2]->Sink[N3]", sl "sanitized"⟩

/-- A hop sequence whose textual order differs from numeric order. -/
def orderRow : TsvToGraphml.Row :=
  ⟨sl "Source[N1]->E5->E2->Sink[N9]", sl "complete"⟩

/-- A row from which neither a Source nor a Sink token can be extracted. -/
def badRow : TsvToGraphml.Row :=
  ⟨sl "no tokens here", sl "complete"⟩

/-- A well-formed row used to observe that processing continues. -/
def goodRow : TsvToGraphml.Row :=
  ⟨sl "Source[N4]->Sink[N5]", sl "complete"⟩

end Examples

namespace StrUtil

theorem mem_setAdd {α : Type} [DecidableEq α] (s : List α) (x y : α) :
    y ∈ setAdd s x ↔ y ∈ s ∨ y = x := by
  unfold setAdd
  by_cases h : x ∈ s
  · simp only [if_pos h]
    constructor
    · exact fun hy => Or.inl hy
    · rintro (hy | rfl)
      · exact hy
      · exact h
  · simp [if_neg h]

theorem nodup_setAdd {α : Type} [DecidableEq α] (s : List α) (x : α)
    (h : s.Nodup) : (setAdd s x).Nodup := by
  unfold setAdd
  by_cases hx : x ∈ s
  · simpa [if_pos hx]
  · simp only [if_neg hx]
    simpa [List.nodup_append] using ⟨h, fun hmem => hx hmem⟩

theorem foldl_setAdd_mem {α β : Type} [DecidableEq β] (f : α → β) (l : List α)
    (acc : List β) (y : β) :
    y ∈ l.foldl (fun a x => setAdd a (f x)) acc ↔ y ∈ acc ∨ ∃ x ∈ l, f x = y := by
  induction l generalizing acc with
  | nil => simp
  | cons x xs ih =>
    rw [List.foldl_cons, ih, mem_setAdd]
    simp only [List.mem_cons]
    constructor
    · rintro ((hy | rfl) | ⟨x', hx', rfl⟩)
      · exact Or.inl hy
      · exact Or.inr ⟨x, Or.inl rfl, rfl⟩
      · exact Or.inr ⟨x', Or.inr hx', rfl⟩
    · rintro (hy | ⟨x', (rfl | hx'), rfl⟩)
      · exact Or.inl (Or.inl hy)
      · exact Or.inl (Or.inr rfl)
      · exact Or.inr ⟨x', hx', rfl⟩

theorem foldl_setAdd_nodup {α β : Type} [DecidableEq β] (f : α → β) (l : List α)
    (acc : List β) (h : acc.Nodup) :
    (l.foldl (fun a x => setAdd a (f x)) acc).Nodup := by
  induction l generalizing acc with
  | nil => simpa
  | cons x xs ih => exact ih _ (nodup_setAdd _ _ h)

theorem foldl_setAddIf_mem {α β : Type} [DecidableEq β] (p : α → Bool) (f : α → β)
    (l : List α) (acc : List β) (y : β) :
    y ∈ l.foldl (fun a x => if p x then setAdd a (f x) else a) acc ↔
      y ∈ acc ∨ ∃ x ∈ l, p x = true ∧ f x = y := by
  induction l generalizing acc with
  | nil => simp
  | cons x xs ih =>
    rw [List.foldl_cons]
    by_cases hp : p x = true
    · rw [if_pos hp, ih, mem_setAdd]
      simp only [List.mem_cons]
      constructor
      · rintro ((hy | rfl) | ⟨x', hx', hpx', rfl⟩)
        · exact Or.inl hy
        · exact Or.inr ⟨x, Or.inl rfl, hp, rfl⟩
        · exact Or.inr ⟨x', Or.inr hx', hpx', rfl⟩
      · rintro (hy | ⟨x', (rfl | hx'), hpx', rfl⟩)
        · exact Or.inl (Or.inl hy)
        · exact Or.inl (Or.inr rfl)
        · exact Or.inr ⟨x', hx', hpx', rfl⟩
    · rw [if_neg hp, ih]
      simp only [List.mem_cons]
      constructor
      · rintro (hy | ⟨x', hx', hpx', rfl⟩)
        · exact Or.inl hy
        · exact Or.inr ⟨x', Or.inr hx', hpx', rfl⟩
      · rintro (hy | ⟨x', (rfl | hx'), hpx', rfl⟩)
        · exact Or.inl hy
        · exact absurd hpx' hp
        · exact Or.inr ⟨x', hx', hpx', rfl⟩

theorem foldl_setAddIf_nodup {α β : Type} [DecidableEq β] (p : α → Bool) (f : α → β)
    (l : List α) (acc : List β) (h : acc.Nodup) :
    (l.foldl (fun a x => if p x then setAdd a (f x) else a) acc).Nodup := by
  induction l generalizing acc with
  | nil => simpa
  | cons x xs ih =>
    rw [List.foldl_cons]
    by_cases hp : p x = true
    · rw [if_pos hp]
      exact ih _ (nodup_setAdd _ _ h)
    · rw [if_neg hp]
      exact ih _ h

theorem foldl_append_singleton {α β : Type} (f : α → β) (l : List α) (acc : List β) :
    l.foldl (fun a x => a ++ [f x]) acc = acc ++ l.map f := by
  induction l generalizing acc with
  | nil => simp
  | cons x xs ih => simp [ih]

end StrUtil

namespace GraphmlToFact

theorem accumNodes_eq_flat (docs : List Doc) :
    accumNodes docs =
      ((docs.map (fun d => d.rawNodes)).flatten).foldl
        (fun a rn => setAdd a (rn.id, mappedType rn)) [] := by
  unfold accumNodes
  rw [List.foldl_flatten, List.foldl_map]

theorem mem_accumNodes (docs : List Doc) (p : List Char × List Char) :
    p ∈ accumNodes docs ↔
      ∃ d ∈ docs, ∃ rn ∈ d.rawNodes, (rn.id, mappedType rn) = p := by
  rw [accumNodes_eq_flat,
    foldl_setAdd_mem (fun rn => (rn.id, mappedType rn))]
  simp only [List.mem_flatten, List.mem_map, List.not_mem_nil, false_or]
  constructor
  · rintro ⟨rn, ⟨l, ⟨d, hd, rfl⟩, hrn⟩, h⟩
    exact ⟨d, hd, rn, hrn, h⟩
  · rintro ⟨d, hd, rn, hrn, h⟩
    exact ⟨rn, ⟨d.rawNodes, ⟨d, hd, rfl⟩, hrn⟩, h⟩

theorem nodup_accumNodes (docs : List Doc) : (accumNodes docs).Nodup := by
  rw [accumNodes_eq_flat]
  exact foldl_setAdd_nodup _ _ _ List.nodup_nil

theorem accumEdges_eq_flat (docs : List Doc) :
    accumEdges docs =
      ((docs.map (fun d => d.rawEdges)).flatten).map
        (fun re2 => (re2.source, re2.target, labelOf re2)) := by
  unfold accumEdges
  have gen : ∀ (ds : List Doc) (acc : List (List Char × List Char × List Char)),
      ds.foldl (fun a d =>
          d.rawEdges.foldl (fun a2 re2 => a2 ++ [(re2.source, re2.target, labelOf re2)]) a) acc =
        acc ++ ((ds.map (fun d => d.rawEdges)).flatten).map
          (fun re2 => (re2.source, re2.target, labelOf re2)) := by
    intro ds
    induction ds with
    | nil => intro acc; simp
    | cons d ds2 ih =>
      intro acc
      rw [List.foldl_cons, ih, foldl_append_singleton]
      simp
  simpa using gen docs []

theorem mem_sourcesOf (ns : List (List Char × List Char)) (x : List Char) :
    x ∈ sourcesOf ns ↔ ∃ p ∈ ns, isDrugLike p = true ∧ p.1 = x := by
  unfold sourcesOf
  rw [foldl_setAddIf_mem isDrugLike Prod.fst]
  simp

theorem nodup_sourcesOf (ns : List (List Char × List Char)) :
    (sourcesOf ns).Nodup :=
  foldl_setAddIf_nodup _ _ _ _ List.nodup_nil

theorem mappedType_cases (rn : RawNode) :
    mappedType rn = sl "normal" ∨ mappedType rn = sl "sink" ∨
      mappedType rn = sl "sanitizer" := by
  unfold mappedType TYPE_MAPPING_get
  split_ifs <;> simp

theorem compound_not_in_normal :
    containsSub (sl "compound") (lower (sl "normal")) = false := by decide

theorem compound_not_in_sink :
    containsSub (sl "compound") (lower (sl "sink")) = false := by decide

theorem compound_not_in_sanitizer :
    containsSub (sl "compound") (lower (sl "sanitizer")) = false := by decide

theorem isDrugLike_of_accum (docs : List Doc) (p : List Char × List Char)
    (hp : p ∈ accumNodes docs) :
    isDrugLike p = containsSub (sl "drug") (lower p.1) := by
  rcases (mem_accumNodes docs p).1 hp with ⟨d, _, rn, _, h⟩
  unfold isDrugLike
  have h2 : p.2 = mappedType rn := by rw [← h]
  rcases mappedType_cases rn with hm | hm | hm <;>
    rw [h2, hm] <;>
    simp [compound_not_in_normal, compound_not_in_sink, compound_not_in_sanitizer]

theorem mem_sources_accum (docs : List Doc) (p : List Char × List Char)
    (hp : p ∈ accumNodes docs) :
    p.1 ∈ sourcesOf (accumNodes docs) ↔
      containsSub (sl "drug") (lower p.1) = true := by
  rw [mem_sourcesOf]
  constructor
  · rintro ⟨q, hq, hdr, hq1⟩
    rw [isDrugLike_of_accum docs q hq] at hdr
    rw [← hq1]
    exact hdr
  · intro h
    refine ⟨p, hp, ?_, rfl⟩
    rw [isDrugLike_of_accum docs p hp]
    exact h

end GraphmlToFact

namespace Consolidator

theorem stepNodeC_mono (st : CState) (rn : RawNodeC) :
    st.processedNodes ⊆ (stepNodeC st rn).processedNodes ∧
      (stepNodeC st rn).edgeRows = st.edgeRows := by
  unfold stepNodeC
  split_ifs
  · exact ⟨fun _ h => h, rfl⟩
  · exact ⟨List.subset_append_left _ _, rfl⟩

theorem foldNodes_mono (l : List RawNodeC) (st : CState) :
    st.processedNodes ⊆ (l.foldl stepNodeC st).processedNodes ∧
      (l.foldl stepNodeC st).edgeRows = st.edgeRows := by
  induction l generalizing st with
  | nil => exact ⟨fun _ h => h, rfl⟩
  | cons x xs ih =>
    rw [List.foldl_cons]
    rcases stepNodeC_mono st x with ⟨h1, h2⟩
    rcases ih (stepNodeC st x) with ⟨h3, h4⟩
    exact ⟨h1.trans h3, h4.trans h2⟩

theorem stepEdgeC_inv (st : CState) (e : RawEdgeC) (h : CInv st) :
    CInv (stepEdgeC st e) ∧ (stepEdgeC st e).processedNodes = st.processedNodes := by
  unfold stepEdgeC
  split_ifs with h1 h2
  · exact ⟨h, rfl⟩
  · refine ⟨?_, rfl⟩
    intro x hx
    simp only [List.mem_append, List.mem_singleton] at hx
    rcases hx with hx | rfl
    · exact h x hx
    · exact ⟨h2.1, h2.2⟩
  · exact ⟨h, rfl⟩

theorem foldEdges_inv (l : List RawEdgeC) (st : CState) (h : CInv st) :
    CInv (l.foldl stepEdgeC st) := by
  induction l generalizing st with
  | nil => exact h
  | cons x xs ih =>
    rw [List.foldl_cons]
    exact ih _ (stepEdgeC_inv st x h).1

theorem stepDocC_inv (st : CState) (d : DocC) (h : CInv st) :
    CInv (stepDocC st d) := by
  unfold stepDocC
  apply foldEdges_inv
  rcases foldNodes_mono d.rawNodes st with ⟨hsub, hrows⟩
  intro e he
  rw [hrows] at he
  rcases h e he with ⟨hm1, hm2⟩
  exact ⟨hsub hm1, hsub hm2⟩

theorem runConsolidator_inv (docs : List DocC) : CInv (runConsolidator docs) := by
  unfold runConsolidator
  have main : ∀ (l : List DocC) (st : CState), CInv st → CInv (l.foldl stepDocC st) := by
    intro l
    induction l with
    | nil => exact fun st h => h
    | cons d ds ih =>
      intro st h
      rw [List.foldl_cons]
      exact ih _ (stepDocC_inv st d h)
  apply main
  intro e he
  simp at he

end Consolidator

namespace Claims

open GraphmlToFact Consolidator TsvToGraphml WattLib Examples

/-- C1, counterexample: the fact-emission consolidation path does not key the
node table by identifier.  Observing id "X" as a pathway in one document and
as an enzyme in another yields two rows for "X", with two distinct roles. -/
theorem C1_counterexample :
    (sl "X", sl "sink") ∈ nodesRows c1docs ∧
    (sl "X", sl "sanitizer") ∈ nodesRows c1docs ∧
    (sl "sink" : List Char) ≠ sl "sanitizer" := by decide

/-- C1, amended: the accumulated node set is a set of (identifier, mapped
type) pairs, so duplicate observations of the same identifier with the same
mapped type collapse to one entry (set semantics), and the emitted nodes
table has exactly one row per accumulated pair; an identifier observed with
distinct mapped types yields one row per distinct type and can therefore
map to more than one role. -/
theorem C1_thm (docs : List Doc) :
    (accumNodes docs).Nodup ∧
    (∀ p, p ∈ accumNodes docs ↔
      ∃ d ∈ docs, ∃ rn ∈ d.rawNodes, (rn.id, mappedType rn) = p) ∧
    (nodesRows docs).length = (accumNodes docs).length :=
  ⟨nodup_accumNodes docs,
   fun p => mem_accumNodes docs p,
   by simp [nodesRows]⟩

/-- C1, witness: the amended statement applied to the concrete batch of the
counterexample. -/
theorem C1_witness :
    (accumNodes c1docs).Nodup ∧ (nodesRows c1docs).length = (accumNodes c1docs).length :=
  ⟨(C1_thm c1docs).1, (C1_thm c1docs).2.2⟩

/-- C2, counterexample: the fact-table consolidation path emits edges
unconditionally, so an edge to the never-observed id "B" reaches the edges
fact table even though "B" has no row in the nodes fact table. -/
theorem C2_counterexample :
    (sl "A", sl "B", ([] : List Char)) ∈ edgesRows c2docs ∧
    sl "B" ∉ (nodesRows c2docs).map Prod.fst := by decide

/-- C2, amended: the no-dangling-edge rule holds in the consolidated-document
path (parse_kegg_graphml.py): every edge the consolidator keeps has both its
source and target among the processed node ids; the fact-table path applies
no such constraint. -/
theorem C2_thm (docs : List DocC) (e : List Char × List Char × List Char)
    (he : e ∈ (runConsolidator docs).edgeRows) :
    e.1 ∈ (runConsolidator docs).processedNodes ∧
    e.2.1 ∈ (runConsolidator docs).processedNodes :=
  runConsolidator_inv docs e he

/-- C2, witness: a concrete consolidator run keeping one edge, whose
endpoints are indeed processed nodes. -/
theorem C2_witness :
    ((sl "A", sl "B", ([] : List Char)) ∈ (runConsolidator c2consDocs).edgeRows) ∧
    sl "A" ∈ (runConsolidator c2consDocs).processedNodes ∧
    sl "B" ∈ (runConsolidator c2consDocs).processedNodes := by
  refine ⟨by decide, ?_⟩
  exact C2_thm c2consDocs (sl "A", sl "B", []) (by decide)

/-- C3: in the fact-generation path the final role of every accumulated
(identifier, mapped type) pair is "source" exactly when the identifier
contains a "drug" token (case-insensitively) or the assigned type contains a
"compound" token, and is the mapped type otherwise; the override is one
final pass over the whole accumulated node set. -/
theorem C3_thm (docs : List Doc) :
    nodesRows docs = (accumNodes docs).map
      (fun p => (p.1,
        if containsSub (sl "drug") (lower p.1) || containsSub (sl "compound") (lower p.2)
        then sl "source" else p.2)) := by
  unfold nodesRows
  apply List.map_congr_left
  intro p hp
  have hiff := mem_sources_accum docs p hp
  have hcond := isDrugLike_of_accum docs p hp
  unfold isDrugLike at hcond
  rw [hcond]
  by_cases hd : containsSub (sl "drug") (lower p.1) = true
  · have hmem := hiff.2 hd
    simp [hmem, hd]
  · have hmem : p.1 ∉ sourcesOf (accumNodes docs) := fun hm => hd (hiff.1 hm)
    simp [hmem, hd]

/-- C3, witness: the override on a concrete batch containing a drug-named
node and a pathway-typed node. -/
theorem C3_witness :
    nodesRows c3docs = (accumNodes c3docs).map
      (fun p => (p.1,
        if containsSub (sl "drug") (lower p.1) || containsSub (sl "compound") (lower p.2)
        then sl "source" else p.2)) ∧
    nodesRows c3docs = [(sl "drugA", sl "source"), (sl "P", sl "sink")] :=
  ⟨C3_thm c3docs, by decide⟩

/-- C10: rows of the sensitive fact table are exactly ('drug_' + id, id),
one per identifier promoted to source; every such identifier has a nodes
row with role "source", and every nodes row carrying such an identifier has
role "source". -/
theorem C10_thm (docs : List Doc) :
    ((sensRows docs).map Prod.snd).Nodup ∧
    (∀ r, r ∈ sensRows docs →
      r.1 = sl "drug_" ++ r.2 ∧
      (r.2, sl "source") ∈ nodesRows docs ∧
      ∀ q, q ∈ nodesRows docs → q.1 = r.2 → q.2 = sl "source") ∧
    (∀ i, i ∈ sourcesOf (accumNodes docs) → (sl "drug_" ++ i, i) ∈ sensRows docs) := by
  refine ⟨?_, ?_, ?_⟩
  · have : (sensRows docs).map Prod.snd = sourcesOf (accumNodes docs) := by
      unfold sensRows
      rw [List.map_map]
      have hcomp : (Prod.snd ∘ fun i : List Char => (sl "drug_" ++ i, i)) = id := rfl
      rw [hcomp, List.map_id]
    rw [this]
    exact nodup_sourcesOf _
  · intro r hr
    rcases List.mem_map.1 hr with ⟨i, hi, rfl⟩
    refine ⟨rfl, ?_, ?_⟩
    · rcases (mem_sourcesOf _ _).1 hi with ⟨p, hp, _, hp1⟩
      have : (p.1, if p.1 ∈ sourcesOf (accumNodes docs) then sl "source" else p.2) ∈
          nodesRows docs := List.mem_map.2 ⟨p, hp, rfl⟩
      rw [hp1] at this
      rwa [if_pos (hp1 ▸ hi)] at this
    · intro q hq hq1
      rcases List.mem_map.1 hq with ⟨p, hp, rfl⟩
      simp only at hq1
      rw [if_pos (hq1 ▸ hi)]
  · intro i hi
    exact List.mem_map.2 ⟨i, hi, rfl⟩

/-- C10, witness: the sensitive table of a concrete batch with one promoted
identifier, tied back to its nodes row through the theorem. -/
theorem C10_witness :
    ((sl "drug_" ++ sl "drugA", sl "drugA") ∈ sensRows c10docs) ∧
    ((sl "drugA", sl "source") ∈ nodesRows c10docs) := by
  refine ⟨(C10_thm c10docs).2.2 (sl "drugA") (by decide), ?_⟩
  exact (((C10_thm c10docs).2.1 (sl "drug_" ++ sl "drugA", sl "drugA")
    ((C10_thm c10docs).2.2 (sl "drugA") (by decide))).2.1)

end Claims

namespace TsvToGraphml

theorem chainEdges_shape (snk ptype : List Char) :
    ∀ (hs : List (List Char)) (h src : List Char),
      chainEdges src (h :: hs) snk ptype =
        (src, h, ptype) :: (((h :: hs).zip hs).map (fun q => (q.1, q.2, ptype)) ++
          [((h :: hs).getLastD [], snk, ptype)]) := by
  intro hs
  induction hs with
  | nil =>
    intro h src
    simp [chainEdges]
  | cons h2 t ih =>
    intro h src
    rw [chainEdges, ih h2 h]
    simp [List.zip_cons_cons, List.getLastD_cons]

theorem foldl_sanitizer_append (src snk : List Char) (l : List (List Char))
    (acc : List (List Char × List Char × List Char)) :
    l.foldl (fun a z => a ++ [(src, z, sl "sanitizer"), (z, snk, sl "sanitizer")]) acc =
      acc ++ l.flatMap (fun z => [(src, z, sl "sanitizer"), (z, snk, sl "sanitizer")]) := by
  induction l generalizing acc with
  | nil => simp
  | cons z zs ih => simp [ih]

theorem processRow_edges (st : GState) (row : Row) (src snk : List Char)
    (hsrc : (parse_summary row.summary).source = some src)
    (hsnk : (parse_summary row.summary).sink = some snk)
    (hsrcne : src ≠ []) (hsnkne : snk ≠ []) :
    (processRow st row).edges =
      st.edges ++ chainEdges src (parse_summary row.summary).reaches snk row.ptype ++
        (parse_summary row.summary).sanitizers.flatMap
          (fun z => [(src, z, sl "sanitizer"), (z, snk, sl "sanitizer")]) := by
  have h1 : src.isEmpty = false := by
    cases src with
    | nil => exact absurd rfl hsrcne
    | cons a l => rfl
  have h2 : snk.isEmpty = false := by
    cases snk with
    | nil => exact absurd rfl hsnkne
    | cons a l => rfl
  simp only [processRow]
  rw [hsrc, hsnk]
  dsimp only
  rw [if_neg (by simp [h1, h2])]
  dsimp only
  rw [foldl_sanitizer_append, List.append_assoc]

end TsvToGraphml

namespace Claims

open GraphmlToFact Consolidator TsvToGraphml WattLib Examples

/-- C4: the role classifier's sink rule precedes every later rule, so an
identifier containing a map or pathway indicator token is classified "sink"
even when it also contains a drug indicator token, and is never classified
"source". -/
theorem C4_thm (node_id description : List Char)
    (hmap : containsSub (sl "map") (lower node_id) = true ∨
      containsSub (sl "pathway") (lower node_id) = true)
    (_hdrug : containsSub (sl "drug") (lower node_id) = true) :
    classify_node node_id description = sl "sink" ∧
    classify_node node_id description ≠ sl "source" := by
  have hsink : classify_node node_id description = sl "sink" := by
    unfold classify_node
    rcases hmap with h | h <;> simp [h]
  refine ⟨hsink, ?_⟩
  rw [hsink]
  decide

/-- C4, witness: a concrete identifier containing both a map token and a
drug token is classified sink, not source. -/
theorem C4_witness :
    (containsSub (sl "map") (lower (sl "map_drug01")) = true ∨
      containsSub (sl "pathway") (lower (sl "map_drug01")) = true) ∧
    containsSub (sl "drug") (lower (sl "map_drug01")) = true ∧
    classify_node (sl "map_drug01") (sl "") = sl "sink" ∧
    classify_node (sl "map_drug01") (sl "") ≠ sl "source" := by
  refine ⟨Or.inl (by decide), by decide, ?_⟩
  exact C4_thm (sl "map_drug01") (sl "") (Or.inl (by decide)) (by decide)

/-- C5: the reconstructed chain runs from the source through the hops in
textual appearance order to the sink, one edge per consecutive pair, every
edge labeled with the row's path type; on the concrete row whose textual hop
order (E5 before E2) differs from numeric order, the chain follows the
textual order. -/
theorem C5_thm :
    (∀ (src snk ptype h : List Char) (hs : List (List Char)),
      chainEdges src (h :: hs) snk ptype =
        (src, h, ptype) :: (((h :: hs).zip hs).map (fun q => (q.1, q.2, ptype)) ++
          [((h :: hs).getLastD [], snk, ptype)])) ∧
    (runRows [orderRow]).edges =
      [(sl "N1", sl "E5", sl "complete"), (sl "E5", sl "E2", sl "complete"),
       (sl "E2", sl "N9", sl "complete")] :=
  ⟨fun src snk ptype h hs => chainEdges_shape snk ptype hs h src, by decide⟩

/-- C6: a valid row contributes its chain edges plus, for every sanitizer
found in it, exactly the two extra edges (source, sanitizer) and
(sanitizer, sink) labeled "sanitizer"; the spec's worked example row yields
exactly the listed node set and edge list. -/
theorem C6_thm :
    (∀ (st : GState) (row : Row) (src snk : List Char),
      (parse_summary row.summary).source = some src →
      (parse_summary row.summary).sink = some snk →
      src ≠ [] → snk ≠ [] →
      (processRow st row).edges =
        st.edges ++ chainEdges src (parse_summary row.summary).reaches snk row.ptype ++
          (parse_summary row.summary).sanitizers.flatMap
            (fun z => [(src, z, sl "sanitizer"), (z, snk, sl "sanitizer")])) ∧
    (runRows [exampleRow]).nodes.Perm [sl "N1", sl "E1", sl "N2", sl "N3"] ∧
    (runRows [exampleRow]).edges =
      [(sl "N1", sl "E1", sl "sanitized"), (sl "E1", sl "N3", sl "sanitized"),
       (sl "N1", sl "N2", sl "sanitizer"), (sl "N2", sl "N3", sl "sanitizer")] :=
  ⟨processRow_edges, by decide, by decide⟩

/-- C6, witness: the general edge equation applied to the worked example
row starting from the empty state. -/
theorem C6_witness :
    (processRow ⟨[], []⟩ exampleRow).edges =
      [] ++ chainEdges (sl "N1") (parse_summary exampleRow.summary).reaches (sl "N3")
        exampleRow.ptype ++
        (parse_summary exampleRow.summary).sanitizers.flatMap
          (fun z => [(sl "N1", z, sl "sanitizer"), (z, sl "N3", sl "sanitizer")]) :=
  C6_thm.1 ⟨[], []⟩ exampleRow (sl "N1") (sl "N3") (by decide) (by decide)
    (by decide) (by decide)

/-- C7: a row from which no Source token or no Sink token can be extracted
leaves the accumulated state untouched, and the whole run over any row list
containing it equals the run with that row removed. -/
theorem C7_thm (st : GState) (row : Row) (pre post : List Row)
    (h : (parse_summary row.summary).source = none ∨
      (parse_summary row.summary).sink = none) :
    processRow st row = st ∧
    List.foldl processRow st (pre ++ row :: post) =
      List.foldl processRow st (pre ++ post) := by
  have hstep : ∀ st2 : GState, processRow st2 row = st2 := by
    intro st2
    simp only [processRow]
    rcases h with h | h
    · rw [h]
    · rw [h]
      cases hsc : (parse_summary row.summary).source <;> rfl
  refine ⟨hstep st, ?_⟩
  rw [List.foldl_append, List.foldl_append, List.foldl_cons, hstep _]

/-- C7, witness: a tokenless row is skipped and the surrounding run is
unchanged. -/
theorem C7_witness :
    processRow ⟨[], []⟩ badRow = ⟨[], []⟩ ∧
    List.foldl processRow ⟨[], []⟩ ([goodRow] ++ badRow :: []) =
      List.foldl processRow ⟨[], []⟩ ([goodRow] ++ []) :=
  C7_thm ⟨[], []⟩ badRow [goodRow] [] (Or.inl (by decide))

end Claims

namespace WattLib

theorem insertionSort_perm_eq {α : Type} (r : α → α → Prop) [DecidableRel r]
    [IsTotal α r] [IsTrans α r] [IsAntisymm α r] {l l' : List α} (h : l.Perm l') :
    List.insertionSort r l = List.insertionSort r l' :=
  List.eq_of_perm_of_sorted
    (((List.perm_insertionSort r l).trans h).trans (List.perm_insertionSort r l').symm)
    (List.sorted_insertionSort r l) (List.sorted_insertionSort r l')

theorem edgeRowsFrom_length (j : Nat) (l : List (Nat × Nat)) :
    (edgeRowsFrom j l).length = 2 * l.length := by
  induction l generalizing j with
  | nil => simp [edgeRowsFrom]
  | cons p rest ih =>
    simp only [edgeRowsFrom, List.length_cons, ih, List.length]
    omega

theorem edgeRowsFrom_get (j : Nat) (l : List (Nat × Nat)) (i u v : Nat)
    (h : l.get? i = some (u, v)) :
    (edgeRowsFrom j l).get? (2 * i) =
      some [sl "E" ++ natStr (j + 2 * i), natStr u, natStr v, sl "interacts"] ∧
    (edgeRowsFrom j l).get? (2 * i + 1) =
      some [sl "E" ++ natStr (j + 2 * i + 1), natStr v, natStr u, sl "interacts"] := by
  induction l generalizing j i with
  | nil => simp at h
  | cons p rest ih =>
    cases i with
    | zero =>
      simp only [List.get?_cons_zero, Option.some_inj] at h
      subst h
      simp [edgeRowsFrom]
    | succ i2 =>
      rw [List.get?_cons_succ] at h
      rcases ih (j + 2) i2 h with ⟨g1, g2⟩
      have e1 : j + 2 + 2 * i2 = j + 2 * (i2 + 1) := by omega
      have e2 : j + 2 + 2 * i2 + 1 = j + 2 * (i2 + 1) + 1 := by omega
      rw [e1] at g1
      rw [e2] at g2
      constructor
      · have e3 : 2 * (i2 + 1) = 2 * i2 + 1 + 1 := by omega
        rw [e3]
        simp only [edgeRowsFrom, List.get?_cons_succ]
        exact g1
      · have e4 : 2 * (i2 + 1) + 1 = 2 * i2 + 1 + 1 + 1 := by omega
        rw [e4]
        simp only [edgeRowsFrom, List.get?_cons_succ]
        exact g2

end WattLib

namespace Claims

open GraphmlToFact Consolidator TsvToGraphml WattLib Examples

/-- C8: the synthetic topology generator's three output tables are functions
of the generated graph alone, not of the incidental order in which the
library enumerates its nodes or edges: permuting the node or edge
enumeration leaves all three output files byte-identical, because every
output iteration runs over a sorted key sequence.  Together with the seeded
(hence reproducible) graph construction this makes runs with identical
(n, k, p, seed) byte-identical. -/
theorem C8_thm (n : Nat) (ns ns' : List Nat) (es es' : List (Nat × Nat))
    (hn : ns.Perm ns') (he : es.Perm es') :
    nodesFacts n ns = nodesFacts n ns' ∧
    edgesFacts es = edgesFacts es' ∧
    sensitiveFacts n ns = sensitiveFacts n ns' := by
  refine ⟨?_, ?_, ?_⟩
  · unfold nodesFacts
    rw [insertionSort_perm_eq _ hn]
  · unfold edgesFacts
    rw [insertionSort_perm_eq _ he]
  · unfold sensitiveFacts sensitiveNodes
    rw [insertionSort_perm_eq _ (hn.filter _)]

/-- C8, witness: two concrete permuted enumerations of the same 5-node graph
produce identical fact tables. -/
theorem C8_witness :
    ([2, 0, 1, 4, 3] : List Nat).Perm [0, 1, 2, 3, 4] ∧
    ([(3, 4), (1, 2)] : List (Nat × Nat)).Perm [(1, 2), (3, 4)] ∧
    (nodesFacts 5 [2, 0, 1, 4, 3] = nodesFacts 5 [0, 1, 2, 3, 4] ∧
     edgesFacts [(3, 4), (1, 2)] = edgesFacts [(1, 2), (3, 4)] ∧
     sensitiveFacts 5 [2, 0, 1, 4, 3] = sensitiveFacts 5 [0, 1, 2, 3, 4]) :=
  ⟨by decide, by decide, C8_thm 5 _ _ _ _ (by decide) (by decide)⟩

/-- C9: the edges fact file has exactly twice as many rows as the graph has
undirected edges, and the i-th sorted edge (u, v) occupies rows 2i and
2i + 1 as the consecutive reverse pair (E2i, u, v, interacts) and
(E2i+1, v, u, interacts). -/
theorem C9_thm :
    (∀ es : List (Nat × Nat), (edgesFacts es).length = 2 * es.length) ∧
    (∀ (es : List (Nat × Nat)) (i u v : Nat),
      (List.insertionSort pairLe es).get? i = some (u, v) →
      (edgesFacts es).get? (2 * i) =
        some [sl "E" ++ natStr (2 * i), natStr u, natStr v, sl "interacts"] ∧
      (edgesFacts es).get? (2 * i + 1) =
        some [sl "E" ++ natStr (2 * i + 1), natStr v, natStr u, sl "interacts"]) := by
  constructor
  · intro es
    unfold edgesFacts
    rw [edgeRowsFrom_length, List.length_insertionSort]
  · intro es i u v h
    have g := edgeRowsFrom_get 0 (List.insertionSort pairLe es) i u v h
    simpa only [edgesFacts, Nat.zero_add] using g

/-- C9, witness: on the concrete edge list [(3,4),(1,2)] the second sorted
edge (3,4) occupies rows 2 and 3 as a reverse pair. -/
theorem C9_witness :
    ((List.insertionSort pairLe [(3, 4), (1, 2)]).get? 1 = some (3, 4)) ∧
    ((edgesFacts [(3, 4), (1, 2)]).get? (2 * 1) =
      some [sl "E" ++ natStr (2 * 1), natStr 3, natStr 4, sl "interacts"] ∧
    (edgesFacts [(3, 4), (1, 2)]).get? (2 * 1 + 1) =
      some [sl "E" ++ natStr (2 * 1 + 1), natStr 4, natStr 3, sl "interacts"]) :=
  ⟨by decide, C9_thm.2 [(3, 4), (1, 2)] 1 3 4 (by decide)⟩

end Claims
